import Mathlib

/-!
Verification of the locale-resolution and translation-lookup engine
(`rslib/i18n/src/lib.rs`).

The engine's own logic (locale remapping, fallback-chain construction,
per-key lookup, number formatting) is translated directly from the Rust
source.  External collaborators (the `unic_langid` tag parser, the
compiled string catalog, the `fluent` resource parser and the
`num_format` locale table) are modelled as parameters gathered in an
`Externals` record; the parts of `fluent` whose behaviour the source
relies on (bundles, messages, pattern formatting, custom value
formatters, isolation marks) are given a small concrete model.

Numeric values (`f64` in the source) are modelled by their value in
hundredths (an `Int`): the first step of the number-formatting policy,
Rust's `format!("{number:.2}")`, renders a float with exactly two
fraction digits, and everything the engine does afterwards is string
manipulation on that rendering, which the model reproduces exactly.
Rust panics (debug-mode usize underflow in `minfd - frac_num`, and the
`expect` on a missing decimal point) are modelled as `Except.error`.
-/

/-- A parsed language identifier (model of `unic_langid::LanguageIdentifier`
as used by this crate: the canonicalised language subtag plus the optional
canonicalised region subtag). -/
structure LanguageIdentifier where
  language : String
  region : Option String
deriving DecidableEq

/-- The reference-language tag, the source's `"en-US".parse().unwrap()`. -/
def enUS : LanguageIdentifier := ⟨"en", some "US"⟩

/-- Translation of `remapped_lang_name` (lib.rs lines 33-63). -/
def remapped_lang_name (lang : LanguageIdentifier) : String :=
  if lang.language = "en" then
    if lang.region = some "GB" ∨ lang.region = some "AU" then "en-GB" else "templates"
  else if lang.language = "zh" then
    if lang.region = some "TW" ∨ lang.region = some "HK" then "zh-TW" else "zh-CN"
  else if lang.language = "pt" then
    if lang.region = some "PT" then "pt-PT" else "pt-BR"
  else if lang.language = "ga" then "ga-IE"
  else if lang.language = "hy" then "hy-AM"
  else if lang.language = "nb" then "nb-NO"
  else if lang.language = "sv" then "sv-SE"
  else lang.language

/-! ### Decimal rendering primitives

These model the decimal text produced by Rust's fixed-precision float
formatting, plus the `str` operations used by `format_number_values`
(`trim_end_matches`, `find`, `repeat`, `replace`). -/

/-- Decimal digits of a natural number, most significant first
(fuel-indexed so it reduces by `rfl`; `natDigits` supplies enough fuel). -/
def natDigitsAux : Nat → Nat → List Char
  | 0, _ => []
  | fuel + 1, n =>
    if n < 10 then [Nat.digitChar n]
    else natDigitsAux fuel (n / 10) ++ [Nat.digitChar (n % 10)]

/-- Decimal digits of a natural number, most significant first. -/
def natDigits (n : Nat) : List Char := natDigitsAux (n + 1) n

/-- The two fraction digits of `a` hundredths rendered at precision 2. -/
def fracDigits2 (a : Nat) : List Char :=
  [Nat.digitChar (a / 10 % 10), Nat.digitChar (a % 10)]

/-- Sign and integer-part characters of a value of `v` hundredths. -/
def intPartChars (v : Int) : List Char :=
  (if v < 0 then ['-'] else []) ++ natDigits (v.natAbs / 100)

/-- Model of `format!("{number:.2}", ...)` on a value of `v` hundredths:
sign, integer digits, `'.'`, exactly two fraction digits. -/
def renderFixed2 (v : Int) : String :=
  String.mk (intPartChars v ++ '.' :: fracDigits2 v.natAbs)

/-- Remove every trailing occurrence of `c` (list form). -/
def trimEndList (l : List Char) (c : Char) : List Char :=
  (l.reverse.dropWhile (fun x => x == c)).reverse

/-- Model of Rust `str::trim_end_matches(char)`. -/
def trimEndMatches (s : String) (c : Char) : String :=
  String.mk (trimEndList s.data c)

/-- Model of Rust `str::find('.')` (byte index; all strings reaching it
here are ASCII, so char index = byte index). -/
def posOfDot : List Char → Option Nat
  | [] => none
  | c :: rest => if c == '.' then some 0 else (posOfDot rest).map (· + 1)

/-- Replace every occurrence of the character `c` by the string `rep`
(list form); model of Rust `str::replace(char, &str)`. -/
def replaceCharList (l : List Char) (c : Char) (rep : String) : List Char :=
  match l with
  | [] => []
  | a :: rest => (if a == c then rep.data else [a]) ++ replaceCharList rest c rep

/-- Model of Rust `str::replace(char, &str)`. -/
def replaceChar (s : String) (c : Char) (rep : String) : String :=
  String.mk (replaceCharList s.data c rep)

/-! ### Fluent values and number formatting -/

/-- Model of `fluent::types::FluentNumber`: the value (in hundredths, see
the file comment) and the `minimum_fraction_digits` option used by the
formatter. -/
structure FluentNumber where
  value : Int
  minimum_fraction_digits : Option Nat
deriving DecidableEq

/-- Model of `fluent::FluentValue` as consumed by the formatter: numbers
are formatted by the policy, everything else (strings) is not. -/
inductive FluentValue where
  | str : String → FluentValue
  | number : FluentNumber → FluentValue
deriving DecidableEq

/-- Translation of `format_number_values` (lib.rs lines 383-422).
`Except.error` models a Rust panic: the source computes
`let zeros_needed = minfd - frac_num;` on `usize`, which panics
(debug-mode underflow) when `minfd < frac_num`, and it `expect`s a `'.'`
in the trimmed string. -/
def format_number_values (val : FluentValue) (alt_separator : Option String) :
    Except String (Option String) :=
  match val with
  | FluentValue.number num =>
    let with_max_precision := renderFixed2 num.value
    let val1 := trimEndMatches with_max_precision '0'
    let step : Except String String :=
      match num.minimum_fraction_digits with
      | none => Except.ok val1
      | some minfd =>
        match posOfDot val1.data with
        | none => Except.error "expected . in formatted string"
        | some pos =>
          let frac_num := val1.data.length - pos - 1
          if frac_num ≤ minfd then
            let zeros_needed := minfd - frac_num
            if zeros_needed > 0 then
              Except.ok (val1 ++ String.mk (List.replicate zeros_needed '0'))
            else Except.ok val1
          else Except.error "attempt to subtract with overflow"
    match step with
    | Except.error e => Except.error e
    | Except.ok val2 =>
      let result := trimEndMatches val2 '.'
      match alt_separator with
      | some sep => Except.ok (some (replaceChar result '.' sep))
      | none => Except.ok (some result)
  | _ => Except.ok none

/-! ### Fluent bundles (model of the external `fluent` crate surface
used by the source: parse errors, duplicate-key detection, overriding
resources, message lookup, pattern formatting with a custom value
formatter and isolation marks). -/

/-- A message pattern: literal text interleaved with `{$var}` placeables. -/
inductive PatternElement where
  | text : String → PatternElement
  | placeable : String → PatternElement
deriving DecidableEq

/-- A parsed message pattern. -/
abbrev Pattern := List PatternElement

/-- A fluent message: id, and an optional value pattern (a key may carry
only attributes and no value). -/
structure FluentMessage where
  id : String
  value : Option Pattern
deriving DecidableEq

/-- A parsed fluent resource (the messages of one `.ftl` text). -/
abbrev FluentResource := List FluentMessage

/-- Model of `fluent::concurrent::FluentBundle`: its locale list, its
registered messages, the isolation flag (fluent's default is `true`), and
the installed custom formatter (`some true` = the comma formatter,
`some false` = the period formatter, `none` = no custom formatter). -/
structure FluentBundle where
  locales : List LanguageIdentifier
  messages : List FluentMessage
  use_isolating : Bool
  formatter : Option Bool
deriving DecidableEq

/-- Model of `FluentBundle::new`. -/
def FluentBundle.new (locales : List LanguageIdentifier) : FluentBundle :=
  ⟨locales, [], true, none⟩

/-- Model of `FluentBundle::get_message`. -/
def FluentBundle.get_message (b : FluentBundle) (key : String) : Option FluentMessage :=
  b.messages.find? (fun m => m.id == key)

/-- Does the resource contain a message whose id is already in `ids`, or
duplicated inside the resource itself? (The duplicate-key condition of
`FluentBundle::add_resource`.) -/
def hasDupAgainst (ids : List String) : FluentResource → Bool
  | [] => false
  | m :: rest => ids.contains m.id || hasDupAgainst (ids ++ [m.id]) rest

/-- Model of `FluentBundle::add_resource`: fails exactly on a duplicate
key, otherwise registers the resource's messages. -/
def FluentBundle.add_resource (b : FluentBundle) (res : FluentResource) :
    Except Unit FluentBundle :=
  if hasDupAgainst (b.messages.map FluentMessage.id) res then Except.error ()
  else Except.ok { b with messages := b.messages ++ res }

/-- One overriding insertion: replaces any message with the same id. -/
def overrideOne (msgs : List FluentMessage) (m : FluentMessage) : List FluentMessage :=
  msgs.filter (fun m2 => !(m2.id == m.id)) ++ [m]

/-- Model of `FluentBundle::add_resource_overriding`: never fails, keys
present in the resource replace existing keys. -/
def FluentBundle.add_resource_overriding (b : FluentBundle) (res : FluentResource) :
    FluentBundle :=
  { b with messages := res.foldl overrideOne b.messages }

/-- Model of `FluentBundle::set_use_isolating`. -/
def FluentBundle.set_use_isolating (b : FluentBundle) (v : Bool) : FluentBundle :=
  { b with use_isolating := v }

/-! ### External collaborators -/

/-- The external collaborators the engine consumes as black boxes:
`unic_langid`'s string-to-tag parser, the compiled string catalog
(`STRINGS`: bundle-set name to the ordered module texts), the fluent
resource parser (`FluentResource::try_new`, `none` = parse error), and
the `num_format` locale table (`localeDecimal name` = the decimal
separator of the locale named `name`, `none` = unknown locale name). -/
structure Externals where
  parseLang : String → Option LanguageIdentifier
  strings : String → Option (List String)
  tryNew : String → Option FluentResource
  localeDecimal : String → Option String

/-- Translation of `num_format_locale` (lib.rs lines 347-357), returning
the located locale's decimal separator (the only part of the `Locale`
the source reads). -/
def num_format_locale (E : Externals) (lang : LanguageIdentifier) : Option String :=
  match lang.region with
  | some region =>
    match E.localeDecimal (lang.language ++ "_" ++ region) with
    | some d => some d
    | none => E.localeDecimal lang.language
  | none => E.localeDecimal lang.language

/-- Translation of `first_available_num_format_locale` (lib.rs 337-344). -/
def first_available_num_format_locale (E : Externals) :
    List LanguageIdentifier → Option String
  | [] => none
  | lang :: rest =>
    match num_format_locale E lang with
    | some d => some d
    | none => first_available_num_format_locale E rest

/-- Translation of `want_comma_as_decimal_separator` (lib.rs 359-367). -/
def want_comma_as_decimal_separator (E : Externals)
    (langs : List LanguageIdentifier) : Bool :=
  let separator :=
    match first_available_num_format_locale E langs with
    | some d => d
    | none => "."
  separator == ","

/-- Translation of `set_bundle_formatter_for_langs` (lib.rs 327-335):
installs the comma formatter or the period formatter according to the
locale list it is given. -/
def set_bundle_formatter_for_langs (E : Externals) (bundle : FluentBundle)
    (langs : List LanguageIdentifier) : FluentBundle :=
  { bundle with formatter := some (want_comma_as_decimal_separator E langs) }

/-- Translation of `get_bundle` (lib.rs lines 96-126). -/
def get_bundle (E : Externals) (text : String) (extra_text : String)
    (locales : List LanguageIdentifier) : Option FluentBundle :=
  match E.tryNew text with
  | none => none
  | some res =>
    let bundle := FluentBundle.new locales
    match bundle.add_resource res with
    | Except.error _ => none
    | Except.ok bundle1 =>
      let bundle2 :=
        if extra_text.isEmpty then bundle1
        else
          match E.tryNew extra_text with
          | some res2 => bundle1.add_resource_overriding res2
          | none => bundle1
      some (set_bundle_formatter_for_langs E bundle2 locales)

/-- Translation of `get_bundle_with_extra` (lib.rs lines 129-158) in a
non-test build (`cfg!(test)` is false, so `extra_text` stays empty). -/
def get_bundle_with_extra (E : Externals) (text : String)
    (lang : Option LanguageIdentifier) : Option FluentBundle :=
  let locales := (match lang with | some l => [l] | none => []) ++ [enUS]
  get_bundle E text "" locales

/-! ### The translation engine -/

/-- Translation of the first loop of `I18n::new` (lib.rs lines 188-199):
parse each code, drop failures, stop after (and including) the first
entry whose language is `"en"`. -/
def parseAndTruncate (E : Externals) : List String → List LanguageIdentifier
  | [] => []
  | code :: rest =>
    match E.parseLang code with
    | none => parseAndTruncate E rest
    | some lang =>
      if lang.language = "en" then [lang] else lang :: parseAndTruncate E rest

/-- Translation of `ftl_localized_text` (lib.rs lines 302-313). -/
def ftl_localized_text (E : Externals) (lang : LanguageIdentifier) : Option String :=
  match E.strings (remapped_lang_name lang) with
  | some module => some (module.foldl (fun acc t => acc ++ t) "")
  | none => none

/-- Translation of the second loop of `I18n::new` (lib.rs lines 201-220)
in a non-test build: for each surviving tag with catalog text and a
successfully built bundle, collect (bundles, output_langs, resource_text)
in order. -/
def buildLoop (E : Externals) :
    List LanguageIdentifier →
      List FluentBundle × List LanguageIdentifier × List String
  | [] => ([], [], [])
  | lang :: rest =>
    match ftl_localized_text E lang with
    | none => buildLoop E rest
    | some text =>
      match get_bundle_with_extra E text (some lang) with
      | none => buildLoop E rest
      | some bundle =>
        let r := buildLoop E rest
        (bundle :: r.1, lang :: r.2.1, text :: r.2.2)

/-- The engine state behind the lock (`I18nInner`, lib.rs lines 315-323). -/
structure I18nInner where
  bundles : List FluentBundle
  langs : List LanguageIdentifier
  resource_text : List String
deriving DecidableEq

/-- Translation of `I18n::new` (lib.rs lines 183-244) in a non-test
build.  `none` models the `unwrap` panics on a missing or unbuildable
reference-template bundle (the fatal initialization error). -/
def I18n.new (E : Externals) (locale_codes : List String) : Option I18nInner :=
  let input_langs := parseAndTruncate E locale_codes
  let r := buildLoop E input_langs
  match ftl_localized_text E enUS with
  | none => none
  | some template_text =>
    match get_bundle_with_extra E template_text none with
    | none => none
    | some template_bundle =>
      let bundles := r.1 ++ [template_bundle]
      let output_langs := r.2.1 ++ [enUS]
      let resource_text := r.2.2 ++ [template_text]
      let bundles :=
        if locale_codes.isEmpty then
          bundles.map (fun b => b.set_use_isolating false)
        else bundles
      some ⟨bundles, output_langs, resource_text⟩

/-! ### Pattern formatting (model of `FluentBundle::format_pattern`) -/

/-- Named arguments (`FluentArgs`). -/
abbrev FluentArgs := List (String × FluentValue)

/-- Look a variable up in the (optional) argument set. -/
def argLookup (args : Option FluentArgs) (name : String) : Option FluentValue :=
  match args with
  | none => none
  | some l => (l.find? (fun p => p.1 == name)).map (fun p => p.2)

/-- The best-effort text fluent writes for a missing variable: the
placeable's own source, `{$name}`. -/
def missingVarText (name : String) : String := "\x7b$" ++ name ++ "\x7d"

/-- First-strong-isolate character (U+2068). -/
def fsiChar : Char := '⁨'

/-- Pop-directional-isolate character (U+2069). -/
def pdiChar : Char := '⁩'

/-- Wrap a substituted value in isolation marks when the bundle has them
enabled. -/
def isolateVal (b : FluentBundle) (s : String) : String :=
  if b.use_isolating then
    String.mk (fsiChar :: s.data ++ [pdiChar])
  else s

/-- The default stringification fluent applies when no custom formatter
is installed or the formatter declines the value.  Every bundle built by
`get_bundle` installs a formatter that accepts every number, so for the
engine's bundles this is only reached by strings. -/
def defaultStringify : FluentValue → String
  | FluentValue.str s => s
  | FluentValue.number n => trimEndMatches (trimEndMatches (renderFixed2 n.value) '0') '.'

/-- Write one substituted value through the bundle's formatter (the
source installs `format_decimal_with_comma` or
`format_decimal_with_period`, lib.rs 369-381, both of which call
`format_number_values`); `Except.error` propagates a formatter panic. -/
def writeValue (b : FluentBundle) (v : FluentValue) : Except String String :=
  match b.formatter with
  | some comma =>
    match format_number_values v (if comma then some "," else none) with
    | Except.error e => Except.error e
    | Except.ok (some s) => Except.ok s
    | Except.ok none => Except.ok (defaultStringify v)
  | none => Except.ok (defaultStringify v)

/-- Format the elements of a pattern in order. -/
def formatElems (b : FluentBundle) (args : Option FluentArgs) :
    Pattern → Except String String
  | [] => Except.ok ""
  | PatternElement.text s :: rest =>
    match formatElems b args rest with
    | Except.error e => Except.error e
    | Except.ok r => Except.ok (s ++ r)
  | PatternElement.placeable name :: rest =>
    let piece : Except String String :=
      match argLookup args name with
      | none => Except.ok (isolateVal b (missingVarText name))
      | some v =>
        match writeValue b v with
        | Except.error e => Except.error e
        | Except.ok s => Except.ok (isolateVal b s)
    match piece with
    | Except.error e => Except.error e
    | Except.ok p =>
      match formatElems b args rest with
      | Except.error e => Except.error e
      | Except.ok r => Except.ok (p ++ r)

/-- Model of `bundle.format_pattern(pat, args, &mut errs)`: best-effort
text (missing variables render as their placeable source and are merely
logged); `Except.error` models a formatter panic. -/
def format_pattern (b : FluentBundle) (pat : Pattern) (args : Option FluentArgs) :
    Except String String :=
  formatElems b args pat

/-- The value pattern the lookup walk uses from one bundle: the message,
if present, and its value pattern, if any. -/
def usableValue (b : FluentBundle) (key : String) : Option Pattern :=
  (b.get_message key).bind FluentMessage.value

/-- The chain walk of `I18n::tr_` over the bundle list. -/
def trWalk (key : String) (args : Option FluentArgs) :
    List FluentBundle → Except String String
  | [] => Except.ok key
  | b :: rest =>
    match b.get_message key with
    | none => trWalk key args rest
    | some msg =>
      match msg.value with
      | none => trWalk key args rest
      | some pat => format_pattern b pat args

/-- Translation of `I18n::tr_` (lib.rs lines 263-288): walk the bundles
in order; skip a bundle when the key is absent or has no value pattern;
format and return at the first usable pattern; fall back to the literal
key. -/
def I18n.tr_ (inner : I18nInner) (key : String) (args : Option FluentArgs) :
    Except String String :=
  trWalk key args inner.bundles

/-! ### Specification-side definitions

These are written from the specification's words, for comparison with
the translated source (refinement claims C6 and C7). -/

/-- Modelled from the spec (section 4.1): the locale-normalization policy
as the specification states it, case by case.  Bundle-set names follow
the catalog: the British/Australian set is "en-GB", the reference
template set is "templates", the Traditional- and Simplified-script sets
are "zh-TW" and "zh-CN", the European- and Brazilian-Portuguese sets are
"pt-PT" and "pt-BR". -/
def specRemapNormalize (lang : LanguageIdentifier) : String :=
  if lang.language = "en" ∧ (lang.region = some "GB" ∨ lang.region = some "AU") then "en-GB"
  else if lang.language = "en" then "templates"
  else if lang.language = "zh" ∧ (lang.region = some "TW" ∨ lang.region = some "HK") then
    "zh-TW"
  else if lang.language = "zh" then "zh-CN"
  else if lang.language = "pt" ∧ lang.region = some "PT" then "pt-PT"
  else if lang.language = "pt" then "pt-BR"
  else if lang.language = "ga" then "ga-IE"
  else if lang.language = "hy" then "hy-AM"
  else if lang.language = "nb" then "nb-NO"
  else if lang.language = "sv" then "sv-SE"
  else lang.language

/-- Modelled from the spec (section 4.2, number rendering rule): render
with exactly two fraction digits, strip trailing zeros from the
fractional part, right-pad the fractional part to the minimum
fraction-digit requirement, drop a dangling decimal point when the
fractional part became empty, and replace "." by the chosen separator
when that separator is not ".". -/
def specNumberRender (num : FluentNumber) (alt_separator : Option String) : String :=
  let intPart := intPartChars num.value
  let frac0 := trimEndList (fracDigits2 num.value.natAbs) '0'
  let frac :=
    match num.minimum_fraction_digits with
    | some m =>
      if frac0.length < m then frac0 ++ List.replicate (m - frac0.length) '0'
      else frac0
    | none => frac0
  let s :=
    if frac.isEmpty then String.mk intPart
    else String.mk (intPart ++ '.' :: frac)
  let chosen := alt_separator.getD "."
  if chosen = "." then s else replaceChar s '.' chosen

/-- The minimal decimal rendering of a value of `v` hundredths: integer
digits, then the fractional digits with trailing zeros omitted and no
dangling point (the "already-minimal numeric text" of claim C9), defined
arithmetically. -/
def minimalRender (v : Int) : String :=
  let m := v.natAbs % 100
  if m = 0 then String.mk (intPartChars v)
  else if m % 10 = 0 then
    String.mk (intPartChars v ++ ['.', Nat.digitChar (m / 10)])
  else
    String.mk (intPartChars v ++ ['.', Nat.digitChar (m / 10), Nat.digitChar (m % 10)])

/-! ### Concrete instantiations of the external collaborators

Small concrete catalog, parser and locale tables used to evaluate the
theorems on closed inputs. -/

/-- A concrete resource for the "templates" bundle-set. -/
def templatesRes : FluentResource :=
  [⟨"valid-key", some [PatternElement.text "en-value"]⟩,
   ⟨"two-args-key",
    some [PatternElement.text "two args: ", PatternElement.placeable "one",
          PatternElement.text " and ", PatternElement.placeable "two"]⟩,
   ⟨"attrs-only-key", none⟩]

/-- A concrete resource for the "ja" bundle-set. -/
def jaRes : FluentResource :=
  [⟨"valid-key", some [PatternElement.text "ja-value"]⟩]

/-- A concrete resource for the "pl" bundle-set. -/
def plRes : FluentResource :=
  [⟨"one-arg-key",
    some [PatternElement.text "fake Polish ", PatternElement.placeable "one"]⟩]

/-- A concrete external-collaborator instantiation: a tag parser knowing
a few tags, a catalog shipping "templates", "ja" and "pl" sets, a
resource parser mapping each catalog text to its parsed messages, and
the `num_format` table entries for "pl", "en" and "en_US". -/
def demoE : Externals where
  parseLang := fun s =>
    if s = "pl" then some ⟨"pl", none⟩
    else if s = "ja" then some ⟨"ja", none⟩
    else if s = "en" then some ⟨"en", none⟩
    else if s = "zz" then some ⟨"zz", none⟩
    else none
  strings := fun s =>
    if s = "templates" then some ["templates-ftl"]
    else if s = "ja" then some ["ja-ftl"]
    else if s = "pl" then some ["pl-ftl"]
    else none
  tryNew := fun s =>
    if s = "templates-ftl" then some templatesRes
    else if s = "ja-ftl" then some jaRes
    else if s = "pl-ftl" then some plRes
    else none
  localeDecimal := fun s =>
    if s = "pl" then some ","
    else if s = "en" then some "."
    else if s = "en_US" then some "."
    else none

/-- The engine built from the single preference "pl" over `demoE`. -/
def demoEnginePl : I18nInner :=
  (I18n.new demoE ["pl"]).getD ⟨[], [], []⟩

/-- The engine built from the preferences "ja", "en" over `demoE`. -/
def demoEngineJaEn : I18nInner :=
  (I18n.new demoE ["ja", "en"]).getD ⟨[], [], []⟩

/-- The engine built from the empty preference list over `demoE`. -/
def demoEngineEmpty : I18nInner :=
  (I18n.new demoE []).getD ⟨[], [], []⟩

/-- A concrete bundle whose key "k" is present but has no value pattern. -/
def demoBundleNoValue : FluentBundle :=
  ⟨[], [⟨"k", none⟩], false, none⟩

/-- A concrete bundle whose key "k" has the value "T2". -/
def demoBundleT2 : FluentBundle :=
  ⟨[], [⟨"k", some [PatternElement.text "T2"]⟩], false, none⟩

/-- A concrete bundle whose key "k" has the value "T3". -/
def demoBundleT3 : FluentBundle :=
  ⟨[], [⟨"k", some [PatternElement.text "T3"]⟩], false, none⟩

/-- Apply the alternative separator the way `format_number_values` does:
replace every `'.'` when a separator is supplied, change nothing
otherwise. -/
def applySep (sep : Option String) (s : String) : String :=
  match sep with
  | none => s
  | some sp => replaceChar s '.' sp

/-- Join integer-part characters with a fractional part: a dangling
decimal point is dropped when the fractional part is empty. -/
def joinFrac (ic G : List Char) : String :=
  if G.isEmpty then String.mk ic else String.mk (ic ++ '.' :: G)

/-! ### Helper lemmas: list and character facts -/

theorem dropWhile_append_cons {p : Char → Bool} {b : Char} (hb : p b = false)
    (u w : List Char) :
    List.dropWhile p (u ++ b :: w) = List.dropWhile p u ++ b :: w := by
  induction u with
  | nil => simp [List.dropWhile, hb]
  | cons a u ih =>
    by_cases ha : p a
    · simp [List.dropWhile, ha, ih]
    · simp [List.dropWhile, ha]

theorem trimEndList_append_cons {b ch : Char} (hb : (b == ch) = false)
    (x f : List Char) :
    trimEndList (x ++ b :: f) ch = x ++ b :: trimEndList f ch := by
  unfold trimEndList
  rw [show (x ++ b :: f).reverse = f.reverse ++ b :: x.reverse by simp,
    dropWhile_append_cons (p := fun x => x == ch) hb]
  simp

theorem trimEndList_append_singleton {b ch : Char} (hb : (b == ch) = false)
    (x : List Char) : trimEndList (x ++ [b]) ch = x ++ [b] := by
  have := trimEndList_append_cons hb x []
  simpa [trimEndList] using this

theorem trimEndList_append_match (x : List Char) (ch : Char) :
    trimEndList (x ++ [ch]) ch = trimEndList x ch := by
  unfold trimEndList
  simp [List.dropWhile]

theorem trimEndList_subset {l : List Char} {ch a : Char}
    (h : a ∈ trimEndList l ch) : a ∈ l := by
  unfold trimEndList at h
  rw [List.mem_reverse] at h
  have := List.dropWhile_sublist (l := l.reverse) (p := fun x => x == ch)
  have hmem := this.subset h
  simpa using hmem

theorem posOfDot_append (u w : List Char) (hu : ∀ c ∈ u, (c == '.') = false) :
    posOfDot (u ++ '.' :: w) = some u.length := by
  induction u with
  | nil => simp [posOfDot]
  | cons a u ih =>
    have ha : (a == '.') = false := hu a (by simp)
    have ih2 := ih (fun c hc => hu c (by simp [hc]))
    simp [posOfDot, ha, ih2]

theorem digitChar_ne_dot {n : Nat} (h : n < 10) :
    (Nat.digitChar n == '.') = false := by
  interval_cases n <;> decide

theorem digitChar_eq_zero_iff {n : Nat} (h : n < 10) :
    (Nat.digitChar n == '0') = true ↔ n = 0 := by
  interval_cases n <;> decide

theorem natDigitsAux_mem {fuel n : Nat} {c : Char}
    (h : c ∈ natDigitsAux fuel n) : ∃ k, k < 10 ∧ c = Nat.digitChar k := by
  induction fuel generalizing n with
  | zero => simp [natDigitsAux] at h
  | succ fuel ih =>
    unfold natDigitsAux at h
    by_cases hn : n < 10
    · rw [if_pos hn] at h
      simp at h
      exact ⟨n, hn, h⟩
    · rw [if_neg hn] at h
      rcases List.mem_append.1 h with h1 | h2
      · exact ih h1
      · simp at h2
        exact ⟨n % 10, Nat.mod_lt _ (by omega), h2⟩

theorem natDigits_mem {n : Nat} {c : Char} (h : c ∈ natDigits n) :
    ∃ k, k < 10 ∧ c = Nat.digitChar k := natDigitsAux_mem h

theorem natDigits_concat (n : Nat) :
    ∃ pre k, k < 10 ∧ natDigits n = pre ++ [Nat.digitChar k] := by
  unfold natDigits natDigitsAux
  by_cases hn : n < 10
  · refine ⟨[], n, hn, ?_⟩
    rw [if_pos hn]
    rfl
  · refine ⟨natDigitsAux n (n / 10), n % 10, Nat.mod_lt _ (by omega), ?_⟩
    rw [if_neg hn]

theorem intPartChars_mem_ne_dot {v : Int} {c : Char} (h : c ∈ intPartChars v) :
    (c == '.') = false := by
  unfold intPartChars at h
  rcases List.mem_append.1 h with h1 | h2
  · split at h1 <;> simp_all
  · obtain ⟨k, hk, rfl⟩ := natDigits_mem h2
    exact digitChar_ne_dot hk

theorem intPartChars_concat (v : Int) :
    ∃ pre b, intPartChars v = pre ++ [b] ∧ (b == '.') = false := by
  obtain ⟨pre, k, hk, hkeq⟩ := natDigits_concat (v.natAbs / 100)
  unfold intPartChars
  refine ⟨(if v < 0 then ['-'] else []) ++ pre, Nat.digitChar k, ?_, digitChar_ne_dot hk⟩
  rw [hkeq, List.append_assoc]

theorem replaceCharList_dot_dot (l : List Char) : replaceCharList l '.' "." = l := by
  induction l with
  | nil => rfl
  | cons a rest ih =>
    unfold replaceCharList
    by_cases ha : (a == '.') = true
    · rw [if_pos ha, ih]
      have h2 : a = '.' := beq_iff_eq.mp ha
      subst h2
      rfl
    · rw [if_neg ha, ih]
      simp

theorem mk_append (a b : List Char) : String.mk a ++ String.mk b = String.mk (a ++ b) := rfl

/-! ### Helper lemmas: number-formatting pipeline -/

theorem mem_fracTrim_ne_dot {v : Int} {c : Char}
    (hc : c ∈ trimEndList (fracDigits2 v.natAbs) '0') : (c == '.') = false := by
  have h2 := trimEndList_subset hc
  unfold fracDigits2 at h2
  have h10a : v.natAbs / 10 % 10 < 10 := Nat.mod_lt _ (by omega)
  have h10b : v.natAbs % 10 < 10 := Nat.mod_lt _ (by omega)
  rcases (by simpa using h2 : c = Nat.digitChar (v.natAbs / 10 % 10) ∨
      c = Nat.digitChar (v.natAbs % 10)) with rfl | rfl
  · exact digitChar_ne_dot h10a
  · exact digitChar_ne_dot h10b

theorem trim_dot_joinFrac (v : Int) {G : List Char}
    (hG : ∀ c ∈ G, (c == '.') = false) :
    trimEndList (intPartChars v ++ '.' :: G) '.' = (joinFrac (intPartChars v) G).data := by
  rcases List.eq_nil_or_concat G with rfl | ⟨G', g, rfl⟩
  · rw [show intPartChars v ++ '.' :: ([] : List Char) = intPartChars v ++ ['.'] from rfl]
    rw [trimEndList_append_match (intPartChars v) '.']
    obtain ⟨pre, b, hpre, hb⟩ := intPartChars_concat v
    rw [hpre, trimEndList_append_singleton hb]
    simp [joinFrac, hpre]
  · simp only [List.concat_eq_append] at hG ⊢
    have hg : (g == '.') = false := hG g (by simp)
    rw [show intPartChars v ++ '.' :: (G' ++ [g]) = (intPartChars v ++ '.' :: G') ++ [g] by
      simp]
    rw [trimEndList_append_singleton hg]
    simp [joinFrac]

theorem trimEndMatches_dot_joinFrac (v : Int) {G : List Char}
    (hG : ∀ c ∈ G, (c == '.') = false) :
    trimEndMatches (String.mk (intPartChars v ++ '.' :: G)) '.'
      = joinFrac (intPartChars v) G := by
  unfold trimEndMatches
  rw [show (String.mk (intPartChars v ++ '.' :: G)).data = intPartChars v ++ '.' :: G
    from rfl]
  rw [trim_dot_joinFrac v hG]

theorem trimEndMatches_renderFixed2 (v : Int) :
    trimEndMatches (renderFixed2 v) '0'
      = String.mk (intPartChars v ++ '.' :: trimEndList (fracDigits2 v.natAbs) '0') := by
  unfold trimEndMatches renderFixed2
  exact congrArg String.mk (trimEndList_append_cons (by decide) _ _)

/-- Closed-form evaluation of `format_number_values` on a number: the
trimmed fractional digits are padded to the minimum requirement when one
is given and satisfiable, the dangling point is dropped, the separator
is substituted; an unsatisfiable minimum (more remaining fractional
digits than required) is the usize-underflow panic. -/
theorem format_number_values_eval (v : Int) (minfd : Option Nat) (sep : Option String) :
    format_number_values (FluentValue.number ⟨v, minfd⟩) sep =
      match minfd with
      | none =>
        Except.ok (some (applySep sep (joinFrac (intPartChars v)
          (trimEndList (fracDigits2 v.natAbs) '0'))))
      | some m =>
        if (trimEndList (fracDigits2 v.natAbs) '0').length ≤ m then
          Except.ok (some (applySep sep (joinFrac (intPartChars v)
            (trimEndList (fracDigits2 v.natAbs) '0' ++
              List.replicate (m - (trimEndList (fracDigits2 v.natAbs) '0').length) '0'))))
        else Except.error "attempt to subtract with overflow" := by
  have hFmem : ∀ c ∈ trimEndList (fracDigits2 v.natAbs) '0', (c == '.') = false :=
    fun c hc => mem_fracTrim_ne_dot hc
  cases minfd with
  | none =>
    simp only [format_number_values, trimEndMatches_renderFixed2]
    rw [trimEndMatches_dot_joinFrac v hFmem]
    cases sep <;> rfl
  | some m =>
    have hpos := posOfDot_append (intPartChars v) (trimEndList (fracDigits2 v.natAbs) '0')
      (fun c hc => intPartChars_mem_ne_dot hc)
    have hlen : (intPartChars v ++ '.' :: trimEndList (fracDigits2 v.natAbs) '0').length
        - (intPartChars v).length - 1 = (trimEndList (fracDigits2 v.natAbs) '0').length := by
      simp
    have hGmem : ∀ c ∈ trimEndList (fracDigits2 v.natAbs) '0'
        ++ List.replicate (m - (trimEndList (fracDigits2 v.natAbs) '0').length) '0',
        (c == '.') = false := fun c hc => by
      rcases List.mem_append.1 hc with h1 | h2
      · exact hFmem c h1
      · rw [List.eq_of_mem_replicate h2]
        decide
    by_cases hm : (trimEndList (fracDigits2 v.natAbs) '0').length ≤ m
    · by_cases hz : 0 < m - (trimEndList (fracDigits2 v.natAbs) '0').length
      · simp only [format_number_values, trimEndMatches_renderFixed2, hpos, hlen, hm,
          if_true, hz, mk_append, List.append_assoc, List.cons_append]
        rw [trimEndMatches_dot_joinFrac v hGmem]
        cases sep <;> rfl
      · have hz0 : m - (trimEndList (fracDigits2 v.natAbs) '0').length = 0 := by omega
        simp only [format_number_values, trimEndMatches_renderFixed2, hpos, hlen, hm,
          if_true, hz0, List.replicate_zero, List.append_nil, gt_iff_lt,
          lt_self_iff_false, if_false]
        rw [trimEndMatches_dot_joinFrac v hFmem]
        cases sep <;> rfl
    · simp only [format_number_values, trimEndMatches_renderFixed2, hpos, hlen, hm,
        if_false]

/-! ### Helper lemmas: bundle and engine structure -/

theorem get_bundle_shape {E : Externals} {text extra : String}
    {locales : List LanguageIdentifier} {b : FluentBundle}
    (h : get_bundle E text extra locales = some b) :
    b.locales = locales ∧
    b.formatter = some (want_comma_as_decimal_separator E locales) ∧
    b.use_isolating = true := by
  unfold get_bundle at h
  rcases htn : E.tryNew text with _ | res
  · rw [htn] at h
    exact absurd h (by simp)
  · rw [htn] at h
    simp only [FluentBundle.add_resource, FluentBundle.new] at h
    by_cases hdup : hasDupAgainst (List.map FluentMessage.id []) res = true
    · simp only [hdup, if_true] at h
      exact absurd h (by simp)
    · simp only [hdup, if_false] at h
      rcases Option.some.inj h.symm with rfl
      split
      · simp [set_bundle_formatter_for_langs]
      · split
        · simp [set_bundle_formatter_for_langs, FluentBundle.add_resource_overriding]
        · simp [set_bundle_formatter_for_langs]

theorem I18n_new_shape {E : Externals} {codes : List String} {inner : I18nInner}
    (h : I18n.new E codes = some inner) :
    ∃ ttext tb,
      ftl_localized_text E enUS = some ttext ∧
      get_bundle_with_extra E ttext none = some tb ∧
      inner.bundles = (if codes.isEmpty then
          (((buildLoop E (parseAndTruncate E codes)).1 ++ [tb]).map
            (fun b => b.set_use_isolating false))
        else (buildLoop E (parseAndTruncate E codes)).1 ++ [tb]) ∧
      inner.langs = (buildLoop E (parseAndTruncate E codes)).2.1 ++ [enUS] := by
  unfold I18n.new at h
  split at h
  · exact absurd h (by simp)
  · rename_i ttext httext
    split at h
    · exact absurd h (by simp)
    · rename_i tb htb
      refine ⟨ttext, tb, httext, htb, ?_, ?_⟩
      · rcases Option.some.inj h with rfl
        split <;> simp
      · rcases Option.some.inj h with rfl
        rfl

theorem buildLoop_forall (E : Externals) (langs : List LanguageIdentifier) :
    List.Forall₂ (fun b l => b.locales = [l, enUS] ∧
      b.formatter = some (want_comma_as_decimal_separator E [l, enUS]))
      (buildLoop E langs).1 (buildLoop E langs).2.1 := by
  induction langs with
  | nil => simp [buildLoop]
  | cons lang rest ih =>
    cases hft : ftl_localized_text E lang with
    | none => simpa [buildLoop, hft] using ih
    | some text =>
      cases hgb : get_bundle_with_extra E text (some lang) with
      | none => simpa [buildLoop, hft, hgb] using ih
      | some bundle =>
        simp only [buildLoop, hft, hgb]
        refine List.Forall₂.cons ?_ ih
        have hshape := get_bundle_shape (h := hgb)
        exact ⟨hshape.1, hshape.2.1⟩

theorem parseAndTruncate_append_en (E : Externals) (pre : List String) (c : String)
    (post : List String) (l : LanguageIdentifier)
    (hc : E.parseLang c = some l) (hen : l.language = "en")
    (hpre : ∀ l2 ∈ parseAndTruncate E pre, l2.language ≠ "en") :
    parseAndTruncate E (pre ++ c :: post) = parseAndTruncate E pre ++ [l] := by
  induction pre with
  | nil => simp [parseAndTruncate, hc, hen]
  | cons a pre ih =>
    cases hpa : E.parseLang a with
    | none =>
      have hpre2 : ∀ l2 ∈ parseAndTruncate E pre, l2.language ≠ "en" := by
        intro l2 hl2
        exact hpre l2 (by simp [parseAndTruncate, hpa, hl2])
      simp only [List.cons_append, parseAndTruncate, hpa, List.append_eq]
      exact ih hpre2
    | some la =>
      have hla : la.language ≠ "en" := by
        intro hcon
        exact hpre la (by simp [parseAndTruncate, hpa, hcon]) hcon
      have hpre2 : ∀ l2 ∈ parseAndTruncate E pre, l2.language ≠ "en" := by
        intro l2 hl2
        refine hpre l2 ?_
        simp [parseAndTruncate, hpa, hla, hl2]
      simp only [List.cons_append, parseAndTruncate, hpa, hla, if_false, List.append_eq,
        ih hpre2, List.cons_append]

theorem format_number_values_eval_none (v : Int) (sep : Option String) :
    format_number_values (FluentValue.number ⟨v, none⟩) sep =
      Except.ok (some (applySep sep (joinFrac (intPartChars v)
        (trimEndList (fracDigits2 v.natAbs) '0')))) :=
  format_number_values_eval v none sep

theorem format_number_values_eval_some (v : Int) (m : Nat) (sep : Option String) :
    format_number_values (FluentValue.number ⟨v, some m⟩) sep =
      (if (trimEndList (fracDigits2 v.natAbs) '0').length ≤ m then
        Except.ok (some (applySep sep (joinFrac (intPartChars v)
          (trimEndList (fracDigits2 v.natAbs) '0' ++
            List.replicate (m - (trimEndList (fracDigits2 v.natAbs) '0').length) '0'))))
      else Except.error "attempt to subtract with overflow") :=
  format_number_values_eval v (some m) sep

/-! ### Helper lemmas: spec-side number rendering -/

theorem trimEndList_pair (d1 d2 ch : Char) :
    trimEndList [d1, d2] ch =
      if d2 == ch then (if d1 == ch then [] else [d1]) else [d1, d2] := by
  cases h2 : d2 == ch <;> cases h1 : d1 == ch <;>
    simp [trimEndList, List.dropWhile, h1, h2]

theorem replaceChar_dot_dot (s : String) : replaceChar s '.' "." = s := by
  unfold replaceChar
  rw [replaceCharList_dot_dot]

theorem applySep_eq_chosen (sep : Option String) (s : String) :
    applySep sep s =
      (if sep.getD "." = "." then s else replaceChar s '.' (sep.getD ".")) := by
  cases sep with
  | none => simp [applySep]
  | some sp =>
    simp only [applySep, Option.getD_some]
    by_cases hsp : sp = "."
    · subst hsp
      rw [if_pos rfl, replaceChar_dot_dot]
    · rw [if_neg hsp]

theorem padFrac_eq_spec {F : List Char} {m : Nat} (hm : F.length ≤ m) :
    F ++ List.replicate (m - F.length) '0' =
      (if F.length < m then F ++ List.replicate (m - F.length) '0' else F) := by
  by_cases hlt : F.length < m
  · rw [if_pos hlt]
  · rw [if_neg hlt]
    have : m - F.length = 0 := by omega
    simp [this]

/-! ### Claim theorems -/

/-- Claim C6: the locale normalizer is a pure total function computing
exactly the mapping the specification lists: `en`+GB/AU to the
British/Australian set, other `en` to the reference template set, `zh`
with TW/HK to the Traditional set and otherwise the Simplified set, `pt`
with PT to European Portuguese and otherwise Brazilian Portuguese, the
four single-variant languages to their variant set, and every other
language to its own language subtag with the region ignored. -/
theorem claim_C6_normalizer_refines_spec (lang : LanguageIdentifier) :
    remapped_lang_name lang = specRemapNormalize lang := by
  rcases lang with ⟨l, r⟩
  unfold remapped_lang_name specRemapNormalize
  split_ifs <;> simp_all

/-- Claim C7: the rendered numeric text is produced exactly by the
specification's five-step pipeline (fixed two-digit rendering, trailing
zero stripping, minimum-fraction-digit padding, dangling point removal,
separator substitution), and non-numeric values are not formatted by
the policy: whenever `format_number_values` yields text for a number it
is the text of `specNumberRender`, and strings always yield `none`. -/
theorem claim_C7_number_pipeline_refines_spec :
    (∀ s sep, format_number_values (FluentValue.str s) sep = Except.ok none) ∧
    (∀ num sep out,
      format_number_values (FluentValue.number num) sep = Except.ok (some out) →
      out = specNumberRender num sep) := by
  constructor
  · intro s sep
    rfl
  · intro num sep out h
    rcases num with ⟨v, minfd⟩
    cases minfd with
    | none =>
      rw [format_number_values_eval_none] at h
      simp only [Except.ok.injEq, Option.some.injEq] at h
      subst h
      rw [specNumberRender, applySep_eq_chosen]
      rfl
    | some m =>
      rw [format_number_values_eval_some] at h
      by_cases hm : (trimEndList (fracDigits2 v.natAbs) '0').length ≤ m
      · rw [if_pos hm] at h
        simp only [Except.ok.injEq, Option.some.injEq] at h
        subst h
        rw [specNumberRender, applySep_eq_chosen]
        simp only []
        rw [← padFrac_eq_spec hm]
        rfl
      · rw [if_neg hm] at h
        exact absurd h (by simp)

/-- Witness for C7 at concrete inputs: 1.50 with a minimum of 3
fractional digits and the comma separator renders as "1,500", matching
the spec pipeline, and a string value is not formatted. -/
theorem claim_C7_number_pipeline_refines_spec_witness :
    format_number_values (FluentValue.number ⟨150, some 3⟩) (some ",") =
        Except.ok (some "1,500") ∧
      "1,500" = specNumberRender ⟨150, some 3⟩ (some ",") ∧
      format_number_values (FluentValue.str "abc") (some ",") = Except.ok none := by
  refine ⟨by rfl, ?_, ?_⟩
  · exact claim_C7_number_pipeline_refines_spec.2 ⟨150, some 3⟩ (some ",") "1,500" (by rfl)
  · exact claim_C7_number_pipeline_refines_spec.1 "abc" (some ",")

/-- Claim C9: number rendering is idempotent on already-minimal numeric
text.  Every modelled value has at most two fractional digits; with no
minimum-fraction-digit requirement, formatting returns exactly the
arithmetically minimal digit sequence (`minimalRender`: no trailing
zeros, no dangling point), differing from it only by the separator
substitution `applySep`. -/
theorem claim_C9_idempotent_on_minimal (v : Int) (sep : Option String) :
    format_number_values (FluentValue.number ⟨v, none⟩) sep =
      Except.ok (some (applySep sep (minimalRender v))) := by
  rw [format_number_values_eval_none]
  have hjf : joinFrac (intPartChars v) (trimEndList (fracDigits2 v.natAbs) '0')
      = minimalRender v := by
    have h1 : v.natAbs / 10 % 10 = v.natAbs % 100 / 10 :=
      (Nat.mod_mul_right_div_self v.natAbs 10 10).symm
    have h2 : v.natAbs % 10 = v.natAbs % 100 % 10 :=
      (Nat.mod_mod_of_dvd v.natAbs (by norm_num)).symm
    have hm100 : v.natAbs % 100 < 100 := Nat.mod_lt _ (by norm_num)
    by_cases hm : v.natAbs % 100 = 0
    · have hd1 : v.natAbs / 10 % 10 = 0 := by omega
      have hd2 : v.natAbs % 10 = 0 := by omega
      simp only [fracDigits2, hd1, hd2]
      rw [show trimEndList [Nat.digitChar 0, Nat.digitChar 0] '0' = [] from by decide]
      simp [joinFrac, minimalRender, hm]
    · by_cases hm10 : v.natAbs % 100 % 10 = 0
      · have hd2 : v.natAbs % 10 = 0 := by omega
        have hq0 : v.natAbs % 100 / 10 ≠ 0 := by omega
        have hq10 : v.natAbs % 100 / 10 < 10 := by omega
        have hd1ne : (Nat.digitChar (v.natAbs % 100 / 10) == '0') = false := by
          rcases hb : Nat.digitChar (v.natAbs % 100 / 10) == '0' with _ | _
          · rfl
          · exact absurd ((digitChar_eq_zero_iff hq10).mp hb) hq0
        simp only [fracDigits2, hd2, h1]
        rw [trimEndList_pair]
        rw [if_pos (show (Nat.digitChar 0 == '0') = true from rfl)]
        rw [if_neg (by simp [hd1ne])]
        simp only [joinFrac, minimalRender, hm, hm10, List.isEmpty_cons, if_false]
        simp [hm, hm10]
      · have hd2 : v.natAbs % 10 ≠ 0 := by omega
        have hd2lt : v.natAbs % 10 < 10 := Nat.mod_lt _ (by norm_num)
        have hd2ne : (Nat.digitChar (v.natAbs % 10) == '0') = false := by
          rcases hb : Nat.digitChar (v.natAbs % 10) == '0' with _ | _
          · rfl
          · exact absurd ((digitChar_eq_zero_iff hd2lt).mp hb) hd2
        simp only [fracDigits2]
        rw [trimEndList_pair]
        rw [if_neg (by simp [hd2ne])]
        simp only [joinFrac, List.isEmpty_cons, if_false]
        rw [minimalRender]
        rw [if_neg hm, if_neg hm10]
        rw [h1, h2]
        simp
  rw [hjf]

/-- Claim C10 (code bug): number formatting is not total.  At the value
1.25 with `minimum_fraction_digits = 1` the source computes the usize
subtraction `minfd - frac_num` = `1 - 2`, which underflows: a
debug-build panic (and in release the wrapped count aborts the huge
`"0".repeat`), instead of returning a string. -/
theorem claim_C10_underflow_panic :
    format_number_values (FluentValue.number ⟨125, some 1⟩) none =
      Except.error "attempt to subtract with overflow" := by
  rw [format_number_values_eval_some]
  rw [if_neg (by decide)]

/-! ### Helper lemmas: the lookup walk -/

theorem trWalk_all_skip {key : String} {args : Option FluentArgs} :
    ∀ {bs : List FluentBundle},
    (∀ b ∈ bs, usableValue b key = none) → trWalk key args bs = Except.ok key := by
  intro bs h
  induction bs with
  | nil => rfl
  | cons b rest ih =>
    have hb := h b (by simp)
    unfold usableValue at hb
    unfold trWalk
    cases hmsg : b.get_message key with
    | none =>
      simp only [hmsg]
      exact ih (fun b2 hb2 => h b2 (by simp [hb2]))
    | some msg =>
      rw [hmsg] at hb
      simp only [Option.some_bind] at hb
      simp only [hmsg, hb]
      exact ih (fun b2 hb2 => h b2 (by simp [hb2]))

theorem trWalk_first_usable {key : String} {args : Option FluentArgs}
    {b : FluentBundle} {pat : Pattern}
    (hb : usableValue b key = some pat) :
    ∀ (pre post : List FluentBundle),
    (∀ b2 ∈ pre, usableValue b2 key = none) →
    trWalk key args (pre ++ b :: post) = format_pattern b pat args := by
  intro pre post hpre
  induction pre with
  | nil =>
    unfold usableValue at hb
    cases hmsg : b.get_message key with
    | none => rw [hmsg] at hb; exact absurd hb (by simp)
    | some msg =>
      rw [hmsg] at hb
      simp only [Option.some_bind] at hb
      simp only [List.nil_append, trWalk, hmsg, hb]
  | cons b2 pre ih =>
    have hb2 := hpre b2 (by simp)
    unfold usableValue at hb2
    unfold trWalk
    cases hmsg : b2.get_message key with
    | none =>
      simp only [hmsg, List.cons_append]
      exact ih (fun b3 hb3 => hpre b3 (by simp [hb3]))
    | some msg =>
      rw [hmsg] at hb2
      simp only [Option.some_bind] at hb2
      simp only [hmsg, hb2, List.cons_append]
      exact ih (fun b3 hb3 => hpre b3 (by simp [hb3]))

/-- Claim C3: for every engine state, key and arguments, the lookup
walks the bundle chain in construction order and returns the text
formatted by the first bundle whose key has a non-empty value pattern —
bundles lacking the key or holding a valueless key are skipped, later
bundles are never consulted once one yields output — and when no bundle
has a usable pattern, the literal key itself is returned. -/
theorem claim_C3_chain_lookup :
    (∀ (inner : I18nInner) (key : String) (args : Option FluentArgs),
      (∀ b ∈ inner.bundles, usableValue b key = none) →
      I18n.tr_ inner key args = Except.ok key) ∧
    (∀ (pre : List FluentBundle) (b : FluentBundle) (post : List FluentBundle)
      (langs : List LanguageIdentifier) (texts : List String)
      (key : String) (args : Option FluentArgs) (pat : Pattern),
      (∀ b2 ∈ pre, usableValue b2 key = none) →
      usableValue b key = some pat →
      I18n.tr_ ⟨pre ++ b :: post, langs, texts⟩ key args
        = format_pattern b pat args) := by
  constructor
  · intro inner key args h
    exact trWalk_all_skip h
  · intro pre b post langs texts key args pat hpre hb
    exact trWalk_first_usable hb pre post hpre

/-- Witness for C3 at concrete bundles: the first bundle has "k" with no
value and is skipped, the second holds "T2" and is returned, the third
("T3") is never consulted; a key absent from every bundle comes back
literally. -/
theorem claim_C3_chain_lookup_witness :
    usableValue demoBundleNoValue "k" = none ∧
    usableValue demoBundleT2 "k" = some [PatternElement.text "T2"] ∧
    I18n.tr_ ⟨[demoBundleNoValue, demoBundleT2, demoBundleT3], [], []⟩ "k" none
      = format_pattern demoBundleT2 [PatternElement.text "T2"] none ∧
    I18n.tr_ ⟨[demoBundleNoValue], [], []⟩ "missing-key" none
      = Except.ok "missing-key" := by
  refine ⟨rfl, rfl, ?_, ?_⟩
  · exact claim_C3_chain_lookup.2 [demoBundleNoValue] demoBundleT2 [demoBundleT3]
      [] [] "k" none [PatternElement.text "T2"] (by decide) rfl
  · exact claim_C3_chain_lookup.1 ⟨[demoBundleNoValue], [], []⟩ "missing-key" none
      (by decide)

/-- Claim C8: the bundle builder returns null exactly when the catalog
text fails to parse or registering its pattern-set reports a duplicate
key; and a failed override parse is non-fatal: the bundle built from the
catalog text alone is returned, identical to the bundle built with no
override at all. -/
theorem claim_C8_bundle_builder_failure_modes :
    (∀ (E : Externals) (text extra : String) (locales : List LanguageIdentifier),
      (get_bundle E text extra locales = none ↔
        E.tryNew text = none ∨
          ∃ res, E.tryNew text = some res ∧ hasDupAgainst [] res = true)) ∧
    (∀ (E : Externals) (text extra : String) (locales : List LanguageIdentifier),
      E.tryNew extra = none →
      get_bundle E text extra locales = get_bundle E text "" locales) := by
  constructor
  · intro E text extra locales
    unfold get_bundle
    cases htn : E.tryNew text with
    | none => simp
    | some res =>
      simp only [FluentBundle.add_resource, FluentBundle.new, List.map_nil]
      by_cases hdup : hasDupAgainst [] res = true
      · simp [hdup, htn]
      · simp only [hdup, if_false]
        constructor
        · intro hcon
          exact absurd hcon (by simp)
        · rintro (hcon | ⟨res2, hres2, hdup2⟩)
          · exact absurd hcon (by simp)
          · rcases Option.some.inj hres2 with rfl
            exact absurd hdup2 hdup
  · intro E text extra locales hextra
    unfold get_bundle
    cases htn : E.tryNew text with
    | none => rfl
    | some res =>
      have h0 : "".isEmpty = true := rfl
      cases hie : extra.isEmpty with
      | true => simp only [hie, h0, if_true]
      | false => simp only [hie, hextra, h0, if_true, Bool.false_eq_true, if_false]

/-- Witness for C8 at concrete inputs: an unparseable override text
leaves the catalog-built bundle unchanged, and an unparseable catalog
text yields no bundle. -/
theorem claim_C8_bundle_builder_failure_modes_witness :
    demoE.tryNew "garbage" = none ∧
    get_bundle demoE "ja-ftl" "garbage" [enUS] = get_bundle demoE "ja-ftl" "" [enUS] ∧
    get_bundle demoE "garbage" "" [enUS] = none := by
  refine ⟨rfl, ?_, ?_⟩
  · exact claim_C8_bundle_builder_failure_modes.2 demoE "ja-ftl" "garbage" [enUS] rfl
  · exact (claim_C8_bundle_builder_failure_modes.1 demoE "garbage" "" [enUS]).mpr
      (Or.inl rfl)

/-- Claim C2: for every input preference list (empty, unparseable or
unknown entries included), every successfully constructed engine holds a
non-empty bundle chain whose last entry is the reference-language
bundle: the recorded language list ends in en-US and the last bundle is
the one scoped to the en-US locale alone (the template bundle). -/
theorem claim_C2_terminal_reference_entry (E : Externals) (codes : List String)
    (inner : I18nInner) (h : I18n.new E codes = some inner) :
    inner.bundles ≠ [] ∧ inner.langs ≠ [] ∧
    inner.langs.getLast? = some enUS ∧
    ∃ tb, inner.bundles.getLast? = some tb ∧ tb.locales = [enUS] := by
  obtain ⟨ttext, tb, httext, htb, hbundles, hlangs⟩ := I18n_new_shape h
  have htbshape := get_bundle_shape (h := htb)
  refine ⟨?_, ?_, ?_, ?_⟩
  · rw [hbundles]
    split <;> simp
  · rw [hlangs]
    simp
  · rw [hlangs]
    exact List.getLast?_concat _
  · rw [hbundles]
    split
    · refine ⟨tb.set_use_isolating false, ?_, ?_⟩
      · rw [List.map_append]
        simp [List.getLast?_concat]
      · simpa [FluentBundle.set_use_isolating] using htbshape.1
    · exact ⟨tb, List.getLast?_concat _, htbshape.1⟩

/-- Witness for C2: the engine built from the empty preference list has
a non-empty chain ending in the en-US reference bundle. -/
theorem claim_C2_terminal_reference_entry_witness :
    I18n.new demoE [] = some demoEngineEmpty ∧
    (demoEngineEmpty.bundles ≠ [] ∧ demoEngineEmpty.langs ≠ [] ∧
      demoEngineEmpty.langs.getLast? = some enUS ∧
      ∃ tb, demoEngineEmpty.bundles.getLast? = some tb ∧ tb.locales = [enUS]) :=
  ⟨rfl, claim_C2_terminal_reference_entry demoE [] demoEngineEmpty rfl⟩

/-- Claim C4: parsing truncates the preference list immediately after
(and including) the first entry whose language is "en": the parsed list
of a preference list with an "en" entry is the parsed prefix followed by
that entry, and the engine built from the whole list is identical to the
engine built with everything after the "en" entry discarded — no bundle
is constructed and no language recorded for any later locale. -/
theorem claim_C4_truncate_after_en (E : Externals) (pre : List String)
    (c : String) (post : List String) (l : LanguageIdentifier)
    (hc : E.parseLang c = some l) (hen : l.language = "en")
    (hpre : ∀ l2 ∈ parseAndTruncate E pre, l2.language ≠ "en") :
    parseAndTruncate E (pre ++ c :: post) = parseAndTruncate E pre ++ [l] ∧
    I18n.new E (pre ++ c :: post) = I18n.new E (pre ++ [c]) := by
  have ht := parseAndTruncate_append_en E pre c post l hc hen hpre
  have ht2 : parseAndTruncate E (pre ++ [c]) = parseAndTruncate E pre ++ [l] :=
    parseAndTruncate_append_en E pre c [] l hc hen hpre
  refine ⟨ht, ?_⟩
  unfold I18n.new
  rw [ht, ht2]
  have h1 : (pre ++ c :: post).isEmpty = false := by simp
  have h2 : (pre ++ [c]).isEmpty = false := by simp
  rw [h1, h2]

/-- Witness for C4: with preferences ["ja", "en", "pl"], the parsed list
stops at the "en" entry and the engine equals the one built from
["ja", "en"] alone. -/
theorem claim_C4_truncate_after_en_witness :
    demoE.parseLang "en" = some ⟨"en", none⟩ ∧
    (∀ l2 ∈ parseAndTruncate demoE ["ja"], l2.language ≠ "en") ∧
    parseAndTruncate demoE (["ja"] ++ "en" :: ["pl"])
      = parseAndTruncate demoE ["ja"] ++ [⟨"en", none⟩] ∧
    I18n.new demoE (["ja"] ++ "en" :: ["pl"]) = I18n.new demoE (["ja"] ++ ["en"]) := by
  refine ⟨rfl, by decide, ?_, ?_⟩
  · exact (claim_C4_truncate_after_en demoE ["ja"] "en" ["pl"] ⟨"en", none⟩
      rfl rfl (by decide)).1
  · exact (claim_C4_truncate_after_en demoE ["ja"] "en" ["pl"] ⟨"en", none⟩
      rfl rfl (by decide)).2

/-- Claim C5 counterexample: the reference-language entry is NOT
promoted to be evaluated first.  With preferences ["ja", "en"], the
engine's chain order is [ja, en, en-US]: the "en" entry keeps its second
position, the ja bundle precedes it, and a key served by both bundles
("valid-key", carried by the en entry's templates bundle as "en-value")
is answered by the earlier ja bundle instead. -/
theorem claim_C5_counterexample_no_promotion :
    I18n.new demoE ["ja", "en"] = some demoEngineJaEn ∧
    demoEngineJaEn.langs = [⟨"ja", none⟩, ⟨"en", none⟩, enUS] ∧
    usableValue (demoEngineJaEn.bundles.getD 1 (FluentBundle.new [])) "valid-key"
      = some [PatternElement.text "en-value"] ∧
    I18n.tr_ demoEngineJaEn "valid-key" none = Except.ok "ja-value" := by
  refine ⟨rfl, rfl, rfl, rfl⟩

/-- Claim C5 amended: when the effective preference list contains a
reference-language entry (language "en"), that entry is kept at its
original position — after all earlier preferences, whose bundles precede
its bundle in the chain — and every preference listed after it is
discarded: the parsed list is the parsed prefix followed by the "en"
entry, and the constructed engine's language order is the build order of
exactly that truncated list, then the terminal en-US entry. -/
theorem claim_C5_amended_en_kept_in_place (E : Externals) (pre : List String)
    (c : String) (post : List String) (l : LanguageIdentifier)
    (hc : E.parseLang c = some l) (hen : l.language = "en")
    (hpre : ∀ l2 ∈ parseAndTruncate E pre, l2.language ≠ "en") :
    parseAndTruncate E (pre ++ c :: post) = parseAndTruncate E pre ++ [l] ∧
    ∀ inner, I18n.new E (pre ++ c :: post) = some inner →
      inner.langs = (buildLoop E (parseAndTruncate E pre ++ [l])).2.1 ++ [enUS] := by
  have ht := parseAndTruncate_append_en E pre c post l hc hen hpre
  refine ⟨ht, ?_⟩
  intro inner h
  obtain ⟨ttext, tb, httext, htb, hbundles, hlangs⟩ := I18n_new_shape h
  rw [hlangs, ht]

/-- Witness for the amended C5: with preferences ["ja", "en", "pl"],
the parsed list is [ja, en] and the engine's language order is the build
order of [ja, en] followed by en-US. -/
theorem claim_C5_amended_en_kept_in_place_witness :
    parseAndTruncate demoE (["ja"] ++ "en" :: ["pl"])
        = parseAndTruncate demoE ["ja"] ++ [⟨"en", none⟩] ∧
    demoEngineJaEn.langs
        = (buildLoop demoE (parseAndTruncate demoE ["ja"] ++ [⟨"en", none⟩])).2.1
          ++ [enUS] := by
  refine ⟨?_, ?_⟩
  · exact (claim_C5_amended_en_kept_in_place demoE ["ja"] "en" ["pl"] ⟨"en", none⟩
      rfl rfl (by decide)).1
  · exact (claim_C5_amended_en_kept_in_place demoE ["ja"] "en" ["pl"] ⟨"en", none⟩
      rfl rfl (by decide)).2 demoEngineJaEn rfl

/-- Claim C1 counterexample: the decimal-separator choice is NOT
chain-global.  In the engine built from ["pl"], the key found in the
Polish bundle renders 2.07 with a comma, while a different key served by
the terminal reference bundle of the same engine renders 2.07 with a
period: two keys looked up through the same engine use different
decimal separators. -/
theorem claim_C1_counterexample_not_chain_global :
    I18n.new demoE ["pl"] = some demoEnginePl ∧
    I18n.tr_ demoEnginePl "one-arg-key"
        (some [("one", FluentValue.number ⟨207, none⟩)])
      = Except.ok ("fake Polish ⁨" ++ "2,07" ++ "⁩") ∧
    I18n.tr_ demoEnginePl "two-args-key"
        (some [("one", FluentValue.str "1"), ("two", FluentValue.number ⟨207, none⟩)])
      = Except.ok ("two args: ⁨" ++ "1" ++ "⁩ and ⁨" ++ "2.07" ++ "⁩") ∧
    (("fake Polish ⁨" ++ "2,07" ++ "⁩").data.contains ',' = true ∧
      ("fake Polish ⁨" ++ "2,07" ++ "⁩").data.contains '.' = false) ∧
    (("two args: ⁨" ++ "1" ++ "⁩ and ⁨" ++ "2.07" ++ "⁩").data.contains ','
        = false ∧
      ("two args: ⁨" ++ "1" ++ "⁩ and ⁨" ++ "2.07" ++ "⁩").data.contains '.'
        = true) := by
  refine ⟨rfl, rfl, rfl, by decide, by decide⟩

/-- Claim C1 amended: the decimal-separator style is chosen once per
BUNDLE, not once per chain, at bundle-construction time, from the
bundle's own locale list: each preferred-locale bundle is scoped to
[its locale, en-US] and carries the comma-or-period formatter determined
by that list, while the terminal reference bundle is scoped to [en-US]
and carries the formatter determined by en-US alone; all numeric
substitutions through one bundle use that bundle's separator. -/
theorem claim_C1_amended_per_bundle_separator (E : Externals) (codes : List String)
    (inner : I18nInner) (h : I18n.new E codes = some inner) :
    ∃ bs tb ls,
      inner.bundles = bs ++ [tb] ∧
      inner.langs = ls ++ [enUS] ∧
      List.Forall₂ (fun b l => b.locales = [l, enUS] ∧
        b.formatter = some (want_comma_as_decimal_separator E [l, enUS])) bs ls ∧
      tb.locales = [enUS] ∧
      tb.formatter = some (want_comma_as_decimal_separator E [enUS]) := by
  obtain ⟨ttext, tb, httext, htb, hbundles, hlangs⟩ := I18n_new_shape h
  have htbshape := get_bundle_shape (h := htb)
  have hfa := buildLoop_forall E (parseAndTruncate E codes)
  by_cases hemp : codes.isEmpty
  · refine ⟨(buildLoop E (parseAndTruncate E codes)).1.map
        (fun b => b.set_use_isolating false),
      tb.set_use_isolating false, (buildLoop E (parseAndTruncate E codes)).2.1,
      ?_, hlangs, ?_, ?_, ?_⟩
    · rw [hbundles, if_pos hemp, List.map_append]
      simp
    · exact List.forall₂_map_left_iff.mpr (hfa.imp (fun a b hab => ⟨hab.1, hab.2⟩))
    · simpa [FluentBundle.set_use_isolating] using htbshape.1
    · simpa [FluentBundle.set_use_isolating] using htbshape.2.1
  · refine ⟨(buildLoop E (parseAndTruncate E codes)).1, tb,
      (buildLoop E (parseAndTruncate E codes)).2.1, ?_, hlangs, hfa, htbshape.1,
      htbshape.2.1⟩
    rw [hbundles, if_neg hemp]

/-- Witness for the amended C1: in the engine built from ["pl"], the
Polish bundle is scoped to [pl, en-US] with the comma formatter and the
terminal bundle to [en-US] with the period formatter. -/
theorem claim_C1_amended_per_bundle_separator_witness :
    I18n.new demoE ["pl"] = some demoEnginePl ∧
    (∃ bs tb ls,
      demoEnginePl.bundles = bs ++ [tb] ∧
      demoEnginePl.langs = ls ++ [enUS] ∧
      List.Forall₂ (fun b l => b.locales = [l, enUS] ∧
        b.formatter = some (want_comma_as_decimal_separator demoE [l, enUS])) bs ls ∧
      tb.locales = [enUS] ∧
      tb.formatter = some (want_comma_as_decimal_separator demoE [enUS])) :=
  ⟨rfl, claim_C1_amended_per_bundle_separator demoE ["pl"] demoEnginePl rfl⟩
